import Mathlib

/-! Shallow embedding of the GoClode core: the hot-reloadable configuration
store (`Engine` in `internal/core`), the polling change notifier
(`Engine.watchConfig`), and the module/hook system with its debug tracer
(`ModuleManager` in `internal/core/modules.go`).  SQL tables are modelled as
lists of rows, Go maps as association lists, and the effectful identifiers
(UUIDs, wall-clock timestamps, durations) are either omitted or passed in
explicitly by the caller. -/

namespace GoClode

/-! Configuration store: the `config` table, `Engine.GetConfig`,
`Engine.SetConfig` and the typed accessors. -/

/-- One row of the `config` table: `key TEXT PRIMARY KEY`, `value TEXT NOT
NULL`, `version INTEGER DEFAULT 1`.  The `type`, `description` and
`updated_at` columns play no role in the modelled operations and are
omitted. -/
structure ConfigRow where
  key : String
  value : String
  version : Nat
deriving DecidableEq, Repr

/-- The row produced by `SELECT ... FROM config WHERE key = ?`. -/
def findConfig (tbl : List ConfigRow) (k : String) : Option ConfigRow :=
  tbl.find? (fun r => r.key == k)

/-- Marker for a database-level failure surfaced to a caller. -/
inductive DBErr
  | queryFailed
deriving DecidableEq, Repr

/-- `Engine.GetConfig`: queries the value; `sql.ErrNoRows` is swallowed and
turned into the pair `("", nil)`, so a missing key is a successful empty
result, not an error. -/
def GetConfig (tbl : List ConfigRow) (k : String) : Except DBErr String :=
  match findConfig tbl k with
  | none => Except.ok ""
  | some r => Except.ok r.value

/-- The `INSERT INTO config ... ON CONFLICT(key) DO UPDATE SET value =
excluded.value, updated_at = ..., version = version + 1` statement executed
by `Engine.SetConfig`.  Returns the updated table together with whether the
UPDATE arm ran (a key conflict). -/
def setConfigUpsert (tbl : List ConfigRow) (k v : String) : List ConfigRow × Bool :=
  if tbl.any (fun r => r.key == k) then
    (tbl.map (fun r =>
        if r.key == k then { r with value := v, version := r.version + 1 } else r),
      true)
  else
    (tbl ++ [{ key := k, value := v, version := 1 }], false)

/-- The `config_version_bump` trigger (`AFTER UPDATE ON config`): a further
`UPDATE config SET version = version + 1, updated_at = ... WHERE key =
NEW.key`.  SQLite fires it once per UPDATE (recursive triggers are off),
including the UPDATE arm of an upsert. -/
def configVersionBump (tbl : List ConfigRow) (k : String) : List ConfigRow :=
  tbl.map (fun r => if r.key == k then { r with version := r.version + 1 } else r)

/-- `Engine.SetConfig`: the upsert, plus the trigger firing whenever the
upsert took its UPDATE arm. -/
def SetConfig (tbl : List ConfigRow) (k v : String) : List ConfigRow :=
  let res := setConfigUpsert tbl k v
  if res.2 then configVersionBump res.1 k else res.1

/-- `Engine.GetConfigBool`: the error is discarded (`val, _ :=`), then
`val == "true" || val == "1"`. -/
def GetConfigBool (tbl : List ConfigRow) (k : String) : Bool :=
  let val := (GetConfig tbl k).toOption.getD ""
  val == "true" || val == "1"

/-- The fmt scanner's space table (`fmt/scan.go`): 0x09-0x0D, the ASCII
space, and the Unicode space characters U+0085, U+00A0, U+1680,
U+2000-U+200A, U+2028, U+2029, U+202F, U+205F and U+3000. -/
def isGoScanSpace (c : Char) : Bool :=
  (0x09 ≤ c.toNat && c.toNat ≤ 0x0d) || c.toNat == 0x20 || c.toNat == 0x85 ||
  c.toNat == 0xa0 || c.toNat == 0x1680 || (0x2000 ≤ c.toNat && c.toNat ≤ 0x200a) ||
  c.toNat == 0x2028 || c.toNat == 0x2029 || c.toNat == 0x202f || c.toNat == 0x205f ||
  c.toNat == 0x3000

/-- `(*ss).SkipSpace` as the `Sscanf` family runs it (`nlIsSpace` false):
characters of the space table are skipped, but an input newline is an
"unexpected newline" error (`none`).  A carriage return is skipped either
way, so a `"\r\n"` pair still hits the newline error on the `'\n'`. -/
def skipSpaceScanf : List Char → Option (List Char)
  | [] => some []
  | c :: rest =>
    if c = '\n' then none
    else if isGoScanSpace c then skipSpaceScanf rest
    else some (c :: rest)

/-- Numeric value of a run of decimal digits. -/
def digitsVal (cs : List Char) : Nat :=
  cs.foldl (fun n c => n * 10 + (c.toNat - 48)) 0

/-- Strips one leading sign character, as a `%d` scan does. -/
def dropSign : List Char → List Char
  | '-' :: rest => rest
  | '+' :: rest => rest
  | cs => cs

/-- Whether the scanned token carries a minus sign. -/
def scanIsNeg : List Char → Bool
  | '-' :: _ => true
  | _ => false

/-- The bounds `strconv.ParseInt(value, base, 64)` enforces for a 64-bit
Go `int`. -/
def int64Max : Int := 9223372036854775807

def int64Min : Int := -9223372036854775808

def int64OutOfRange (v : Int) : Bool :=
  decide (v < int64Min) || decide (int64Max < v)

/-- The body of the `%d` scan after space skipping: one optional sign, a
required run of decimal digits, then `ParseInt` with its 64-bit range
check; `none` is a scan error. -/
def scanBody (cs : List Char) : Option Int :=
  let ds := (dropSign cs).takeWhile Char.isDigit
  if ds.isEmpty then none
  else
    let v : Int := if scanIsNeg cs then -(digitsVal ds : Int) else (digitsVal ds : Int)
    if int64OutOfRange v then none else some v

/-- Model of `fmt.Sscanf(s, "%d", &i)` for a 64-bit `int`: skip the
scanner's space set (an input newline is an error), accept one optional
sign, require at least one decimal digit, and parse with the int64 range
check.  On any of those errors the scan fails and `i` keeps its zero
value; trailing characters are ignored. -/
def sscanfInt (s : String) : Int :=
  match skipSpaceScanf s.data with
  | none => 0
  | some cs => (scanBody cs).getD 0

/-- Failure of the `%d` scan of `s`: an input newline among the leading
spaces, no digit after the optional sign, or a value outside the 64-bit
range. -/
def sscanfIntFails (s : String) : Bool :=
  match skipSpaceScanf s.data with
  | none => true
  | some cs => (scanBody cs).isNone

/-- `Engine.GetConfigInt`: the error is discarded, then the text is
scanned. -/
def GetConfigInt (tbl : List ConfigRow) (k : String) : Int :=
  sscanfInt ((GetConfig tbl k).toOption.getD "")

/-! Change notifier: `Engine.watchConfig`, `Engine.notifyWatchers` and the
one-slot `reloadCh` channel. -/

/-- The notifier's state: `Engine.configVersion` and the occupancy of the
single-slot buffered channel `reloadCh`. -/
structure NotifierState where
  configVersion : Int
  reloadPending : Bool
deriving DecidableEq, Repr

/-- What one timer tick of `watchConfig` produced. -/
structure TickOutput where
  state : NotifierState
  notified : Bool
  pushed : Bool
deriving DecidableEq, Repr

/-- One iteration of the `watchConfig` polling loop.  `readResult` is the
result of `SELECT COALESCE(MAX(version), 0) FROM config`; `none` models a
query error, which is swallowed (`continue`).  On a version increase the
loop stores the new version, calls `notifyWatchers` once, and attempts one
non-blocking send on `reloadCh`, dropped when the slot is already full. -/
def watchTick (st : NotifierState) (readResult : Option Int) : TickOutput :=
  match readResult with
  | none => { state := st, notified := false, pushed := false }
  | some v =>
    if st.configVersion < v then
      { state := { configVersion := v, reloadPending := true },
        notified := true,
        pushed := !st.reloadPending }
    else
      { state := st, notified := false, pushed := false }

/-- `Engine.notifyWatchers` dispatch count: each registered watcher receives
exactly one (asynchronous) invocation per notifying tick. -/
def notifyCount (watchers : List Nat) (w : Nat) (out : TickOutput) : Nat :=
  if out.notified then watchers.count w else 0

/-- The polling loop over a finite schedule of tick read-results: every
tick is processed, regardless of read failures in between. -/
def watchRun (st : NotifierState) : List (Option Int) → NotifierState × List TickOutput
  | [] => (st, [])
  | r :: rest =>
    let out := watchTick st r
    let next := watchRun out.state rest
    (next.1, out :: next.2)

/-! Module and hook rows, payloads, and the debug data model. -/

/-- A `module_hooks` row, and equally the in-memory `Hook` struct loaded by
`reload`; the opaque JSON `config` payload is carried as raw text. -/
structure Hook where
  id : String
  moduleId : String
  event : String
  handler : String
  priority : Int
  enabled : Bool
  config : String
deriving DecidableEq, Repr

/-- A `modules` row, and equally the in-memory `Module` struct (whose
`Hooks` field is never populated by `reload`); timestamps omitted. -/
structure Module where
  moduleId : String
  name : String
  version : String
  enabled : Bool
  priority : Int
  config : String
  schemaSql : Option String
deriving DecidableEq, Repr

/-- A `map[string]interface{}` value as the builtin handlers use it: they
read string and bool entries, and `handleLLMAnalyze` stores a reference to
the shared `DebugContext`, modelled by the `ctxRef` marker. -/
inductive PayloadVal
  | str (s : String)
  | boolean (b : Bool)
  | ctxRef
deriving DecidableEq, Repr

/-- A `map[string]interface{}` payload as an association list. -/
abbrev Payload := List (String × PayloadVal)

def Payload.lookup (p : Payload) (k : String) : Option PayloadVal :=
  (List.find? (fun e => e.1 == k) p).map Prod.snd

/-- Go's `v, _ := payload[k].(string)`: the string, or its zero value. -/
def Payload.getStr (p : Payload) (k : String) : String :=
  match Payload.lookup p k with
  | some (PayloadVal.str s) => s
  | _ => ""

/-- `payload[k] = v` on a Go map. -/
def Payload.set (p : Payload) (k : String) (v : PayloadVal) : Payload :=
  if p.any (fun e => e.1 == k) then
    p.map (fun e => if e.1 == k then (e.1, v) else e)
  else
    p ++ [(k, v)]

/-- A `DebugEvent`.  The UUID, wall-clock timestamp, duration and the
structured `Data` attachment are effectful or cyclic and are omitted; the
trace id is a `Nat` drawn by the caller in place of a UUID. -/
structure DebugEvent where
  traceId : Nat
  level : String
  event : String
  module : String
  message : String
deriving DecidableEq, Repr

/-- A `DebugAssertion` recorded by `handleTestAssert`. -/
structure DebugAssertion where
  traceId : Nat
  name : String
  expected : String
  actual : String
  passed : Bool
  message : String
deriving DecidableEq, Repr

/-- `DebugContext`: allocated once per traced `Emit` call. -/
structure DebugContext where
  traceId : Nat
  events : List DebugEvent
  assertions : List DebugAssertion
deriving DecidableEq, Repr

/-- `HookContext`: shared by reference by every hook of one `Emit` call. -/
structure HookContext where
  event : String
  payload : Payload
  debug : Option DebugContext
deriving DecidableEq, Repr

/-- `HookHandler`: mutates the shared context and optionally returns an
error (`none` is success). -/
abbrev HandlerFn := HookContext → HookContext × Option String

/-! The fixed builtin handler set. -/

/-- `handleLog`: prints the payload; no context change, never fails. -/
def handleLog : HandlerFn := fun ctx => (ctx, none)

/-- `handleDebug`: appends one capture event to `ctx.Debug.Events`; a no-op
without a debug context. -/
def handleDebug : HandlerFn := fun ctx =>
  match ctx.debug with
  | none => (ctx, none)
  | some d =>
    let ev : DebugEvent :=
      { traceId := d.traceId, level := "debug", event := ctx.event,
        module := "", message := "" }
    ({ ctx with debug := some { d with events := d.events ++ [ev] } }, none)

/-- `handleLLMAnalyze`: flags the payload for later analysis and stores a
reference to the debug context; a no-op without one. -/
def handleLLMAnalyze : HandlerFn := fun ctx =>
  match ctx.debug with
  | none => (ctx, none)
  | some _ =>
    let p := Payload.set ctx.payload "_llm_analysis_requested" (PayloadVal.boolean true)
    ({ ctx with payload := Payload.set p "_debug_context" PayloadVal.ctxRef }, none)

/-- `handleTestAssert`: records one assertion on the debug context; a no-op
without one.  Never fails. -/
def handleTestAssert : HandlerFn := fun ctx =>
  match ctx.debug with
  | none => (ctx, none)
  | some d =>
    let expected := Payload.getStr ctx.payload "expected"
    let actual := Payload.getStr ctx.payload "actual"
    let a : DebugAssertion :=
      { traceId := d.traceId,
        name := Payload.getStr ctx.payload "assertion_name",
        expected := expected, actual := actual,
        passed := expected == actual,
        message :=
          if expected == actual then ""
          else "Assertion failed: expected " ++ expected ++ ", got " ++ actual }
    ({ ctx with debug := some { d with assertions := d.assertions ++ [a] } }, none)

/-- `handleAutoFix`: when the payload carries an `error` string, flags an
auto-fix request.  Never fails. -/
def handleAutoFix : HandlerFn := fun ctx =>
  match Payload.lookup ctx.payload "error" with
  | some (PayloadVal.str errMsg) =>
    let p := Payload.set ctx.payload "_auto_fix_requested" (PayloadVal.boolean true)
    ({ ctx with payload := Payload.set p "_error_to_fix" (PayloadVal.str errMsg) }, none)
  | _ => (ctx, none)

/-- `handlePatternLearn`: only validates payload fields; never fails and
changes nothing observable. -/
def handlePatternLearn : HandlerFn := fun ctx => (ctx, none)

/-- The package-level `builtinHandlers` table. -/
def builtinHandlers : String → Option HandlerFn := fun n =>
  if n == "log" then some handleLog
  else if n == "debug" then some handleDebug
  else if n == "llm_analyze" then some handleLLMAnalyze
  else if n == "test_assert" then some handleTestAssert
  else if n == "auto_fix" then some handleAutoFix
  else if n == "pattern_learn" then some handlePatternLearn
  else none

/-! The module manager: registry maps, reload, registration, the debug
ring, and `Emit`. -/

/-- `ModuleManager`: the registry maps and the tracer state.  The two Go
mutexes serialize access; the model is the sequential behaviour under those
locks. -/
structure ModuleManager where
  modules : List (String × Module)
  hooks : List (String × List Hook)
  debugEnabled : Bool
  debugLog : List DebugEvent
deriving DecidableEq, Repr

/-- Go map read `mm.hooks[event]` (the zero value is the empty slice). -/
def lookupHooks : List (String × List Hook) → String → List Hook
  | [], _ => []
  | e :: rest, ev => if e.1 == ev then e.2 else lookupHooks rest ev

/-- `mm.hooks[h.Event] = append(mm.hooks[h.Event], &h)` inside `reload`. -/
def indexHook : List (String × List Hook) → Hook → List (String × List Hook)
  | [], h => [(h.event, [h])]
  | e :: rest, h =>
    if e.1 == h.event then (e.1, e.2 ++ [h]) :: rest
    else e :: indexHook rest h

/-- `mm.modules[m.ID] = &m` inside `reload`. -/
def insertModuleEntry : List (String × Module) → Module → List (String × Module)
  | [], m => [(m.moduleId, m)]
  | e :: rest, m =>
    if e.1 == m.moduleId then (e.1, m) :: rest
    else e :: insertModuleEntry rest m

/-- Go map read `mm.modules[id]`. -/
def lookupModule : List (String × Module) → String → Option Module
  | [], _ => none
  | e :: rest, k => if e.1 == k then some e.2 else lookupModule rest k

/-- The `ORDER BY priority` comparison on module rows. -/
def Module.le (a b : Module) : Prop := a.priority ≤ b.priority

instance : DecidableRel Module.le := fun a b => Int.decLe a.priority b.priority

instance : IsTotal Module Module.le := ⟨fun a b => Int.le_total a.priority b.priority⟩

instance : IsTrans Module Module.le := ⟨fun _ _ _ => Int.le_trans⟩

/-- The `ORDER BY priority` comparison on hook rows. -/
def Hook.le (a b : Hook) : Prop := a.priority ≤ b.priority

instance : DecidableRel Hook.le := fun a b => Int.decLe a.priority b.priority

instance : IsTotal Hook Hook.le := ⟨fun a b => Int.le_total a.priority b.priority⟩

instance : IsTrans Hook Hook.le := ⟨fun _ _ _ => Int.le_trans⟩

/-- `SELECT ... FROM modules WHERE enabled = 1 ORDER BY priority`. -/
def queryEnabledModules (tbl : List Module) : List Module :=
  List.insertionSort Module.le (tbl.filter (fun m => m.enabled))

/-- `SELECT ... FROM module_hooks WHERE enabled = 1 ORDER BY priority`. -/
def queryEnabledHooks (tbl : List Hook) : List Hook :=
  List.insertionSort Hook.le (tbl.filter (fun h => h.enabled))

/-- The module-map rebuild loop inside `reload`. -/
def loadModules (rows : List Module) : List (String × Module) :=
  rows.foldl insertModuleEntry []

/-- The event-index rebuild loop inside `reload`. -/
def loadHooks (rows : List Hook) : List (String × List Hook) :=
  rows.foldl indexHook []

/-- `ModuleManager.reload`: clears both in-memory maps, then re-queries.
The two query results are inputs (`Except.error` models a failed query);
an error returns early with whatever had been rebuilt so far. -/
def reload (mm : ModuleManager)
    (modQ : Except DBErr (List Module))
    (hookQ : Except DBErr (List Hook)) : ModuleManager × Option DBErr :=
  let cleared := { mm with modules := [], hooks := [] }
  match modQ with
  | Except.error e => (cleared, some e)
  | Except.ok mrows =>
    let withMods := { cleared with modules := loadModules mrows }
    match hookQ with
    | Except.error e => (withMods, some e)
    | Except.ok hrows => ({ withMods with hooks := loadHooks hrows }, none)

/-- The `INSERT ... ON CONFLICT(module_id) DO UPDATE` of `RegisterModule`
on the `modules` table: every mutable column is replaced. -/
def upsertModuleRow : List Module → Module → List Module
  | [], m => [m]
  | r :: rs, m =>
    if r.moduleId == m.moduleId then m :: rs
    else r :: upsertModuleRow rs m

/-- The table effect of `ModuleManager.RegisterModule`.  The optional
schema-extension script and the forced `reload` it triggers are modelled
separately. -/
def RegisterModule (tbl : List Module) (m : Module) : List Module :=
  upsertModuleRow tbl m

/-- The `INSERT ... ON CONFLICT(hook_id) DO UPDATE` of `RegisterHook`: the
conflict arm replaces every column except `module_id`. -/
def upsertHookRow : List Hook → Hook → List Hook
  | [], h => [h]
  | r :: rs, h =>
    if r.id == h.id then { h with moduleId := r.moduleId } :: rs
    else r :: upsertHookRow rs h

/-- `ModuleManager.logDebug`: a no-op unless debugging is on; otherwise
evict the oldest entry when the ring already holds 1000 or more events,
then append.  The best-effort mirror into `learning_patterns` is a store
side effect outside the ring and is not modelled. -/
def logDebug (debugEnabled : Bool) (log : List DebugEvent) (ev : DebugEvent) :
    List DebugEvent :=
  if !debugEnabled then log
  else if 1000 ≤ log.length then log.drop 1 ++ [ev]
  else log ++ [ev]

/-- A Go runtime panic observable from `Emit`. -/
inductive GoPanic
  | nilPointerDereference
deriving DecidableEq, Repr

/-- The loop state of one `Emit` call: the shared hook context, the tracer
ring, and the trace of (hook, succeeded) invocations so far. -/
structure EmitState where
  ctx : HookContext
  log : List DebugEvent
  invoked : List (Hook × Bool)
deriving DecidableEq, Repr

/-- The outcome of `Emit`: a normal return carrying the updated manager and
the invocation trace, or a runtime panic that unwound the call. -/
inductive EmitResult
  | ok (mm : ModuleManager) (invoked : List (Hook × Bool))
  | panicked (invoked : List (Hook × Bool)) (p : GoPanic)
deriving DecidableEq, Repr

/-- The hooks whose handler was looked up and run, in invocation order. -/
def EmitResult.invokedHooks : EmitResult → List Hook
  | EmitResult.ok _ inv => inv.map Prod.fst
  | EmitResult.panicked inv _ => inv.map Prod.fst

/-- The body of `Emit`'s hook loop.  `origDebug` is the `debugCtx` local
captured before the loop: building either `DebugEvent` literal evaluates
`debugCtx.TraceID`, which dereferences a nil pointer when tracing was off
at the start of the call. -/
def emitLoop (handlers : String → Option HandlerFn) (mm : ModuleManager)
    (origDebug : Option Nat) (event : String) :
    List Hook → EmitState → EmitResult
  | [], st => EmitResult.ok { mm with debugLog := st.log } st.invoked
  | h :: rest, st =>
    match handlers h.handler with
    | none => emitLoop handlers mm origDebug event rest st
    | some f =>
      match f st.ctx with
      | (ctx2, some errMsg) =>
        match origDebug with
        | none => EmitResult.panicked st.invoked GoPanic.nilPointerDereference
        | some tid =>
          let ev : DebugEvent :=
            { traceId := tid, level := "error", event := event, module := h.moduleId,
              message := "Hook " ++ h.handler ++ " failed: " ++ errMsg }
          emitLoop handlers mm origDebug event rest
            { ctx := ctx2, log := logDebug mm.debugEnabled st.log ev,
              invoked := st.invoked ++ [(h, false)] }
      | (ctx2, none) =>
        match origDebug with
        | none => EmitResult.panicked st.invoked GoPanic.nilPointerDereference
        | some tid =>
          let ev : DebugEvent :=
            { traceId := tid, level := "debug", event := event, module := h.moduleId,
              message := "Hook " ++ h.handler ++ " executed" }
          emitLoop handlers mm origDebug event rest
            { ctx := ctx2, log := logDebug mm.debugEnabled st.log ev,
              invoked := st.invoked ++ [(h, true)] }

/-- `ModuleManager.Emit`.  `handlers` is the package-level handler table
and `freshTrace` the identifier drawn for a new trace when tracing is
enabled. -/
def Emit (handlers : String → Option HandlerFn) (mm : ModuleManager)
    (event : String) (payload : Payload) (freshTrace : Nat) : EmitResult :=
  let hooks := lookupHooks mm.hooks event
  if hooks.isEmpty then EmitResult.ok mm []
  else
    let debugCtx : Option DebugContext :=
      if mm.debugEnabled then
        some { traceId := freshTrace, events := [], assertions := [] }
      else none
    emitLoop handlers mm (debugCtx.map DebugContext.traceId) event hooks
      { ctx := { event := event, payload := payload, debug := debugCtx },
        log := mm.debugLog, invoked := [] }

/-! Helper lemmas about the debug ring. -/

theorem logDebug_foldl (es : List DebugEvent) : ∀ acc : List DebugEvent,
    acc.length ≤ 1000 →
    es.foldl (logDebug true) acc = (acc ++ es).drop (acc.length + es.length - 1000) := by
  induction es with
  | nil =>
    intro acc h
    simp [Nat.sub_eq_zero_of_le h]
  | cons e rest ih =>
    intro acc h
    by_cases hlen : 1000 ≤ acc.length
    · have hacc : acc.length = 1000 := Nat.le_antisymm h hlen
      obtain ⟨a, t, rfl⟩ : ∃ a t, acc = a :: t := by
        cases acc with
        | nil => simp at hacc
        | cons a t => exact ⟨a, t, rfl⟩
      have ht : t.length = 999 := by simpa using hacc
      have hstep : logDebug true (a :: t) e = t ++ [e] := by
        simp [logDebug, ht]
      rw [List.foldl_cons, hstep, ih (t ++ [e])
        (by simp only [List.length_append, List.length_cons, List.length_nil]; omega)]
      have h1 : (t ++ [e]).length + rest.length - 1000 = rest.length := by
        simp only [List.length_append, List.length_cons, List.length_nil, ht]
        omega
      have h2 : (a :: t).length + (e :: rest).length - 1000 = rest.length + 1 := by
        simp only [List.length_cons, ht]
        omega
      rw [h1, h2]
      simp [List.append_assoc]
    · have hstep : logDebug true acc e = acc ++ [e] := by
        simp [logDebug, hlen]
      rw [List.foldl_cons, hstep,
        ih (acc ++ [e]) (by simp only [List.length_append, List.length_cons,
          List.length_nil]; omega)]
      have h1 : (acc ++ [e]).length + rest.length - 1000
          = acc.length + (e :: rest).length - 1000 := by
        simp only [List.length_append, List.length_cons, List.length_nil]
        omega
      rw [h1, List.append_assoc]
      simp

/-- Claim C5: the in-memory debug log is a bounded ring of capacity 1000.
Appending when the log already holds 1000 or more entries first evicts the
oldest entry and then appends; after 1001 appends into the empty ring
exactly 1000 events remain, the oldest having been evicted. -/
theorem debugLog_ring_bound (es : List DebugEvent) (h : es.length = 1001) :
    (es.foldl (logDebug true) []).length = 1000 ∧
    es.foldl (logDebug true) [] = es.drop 1 ∧
    (∀ log ev, 1000 ≤ List.length log →
      logDebug true log ev = List.drop 1 log ++ [ev]) := by
  have hfold := logDebug_foldl es [] (by simp)
  simp only [List.nil_append, List.length_nil, Nat.zero_add] at hfold
  rw [h] at hfold
  have h1 : (1001 : Nat) - 1000 = 1 := by norm_num
  rw [h1] at hfold
  refine ⟨?_, hfold, ?_⟩
  · rw [hfold]
    simp [List.length_drop, h]
  · intro log ev hl
    simp [logDebug, hl]

/-- A sample event used to instantiate ring-buffer statements. -/
def sampleEvent : DebugEvent :=
  { traceId := 0, level := "debug", event := "x", module := "m1", message := "" }

theorem debugLog_ring_bound_witness :
    ((List.replicate 1001 sampleEvent).foldl (logDebug true) []).length = 1000 ∧
    (List.replicate 1001 sampleEvent).foldl (logDebug true) []
      = (List.replicate 1001 sampleEvent).drop 1 := by
  have h := debugLog_ring_bound (List.replicate 1001 sampleEvent)
    (List.length_replicate 1001 sampleEvent)
  exact ⟨h.1, h.2.1⟩

/-! Claim C1: the dispatch panic when tracing is disabled. -/

/-- An enabled hook on event `x` whose handler name resolves in the builtin
table and whose handler always succeeds. -/
def logHookC1 : Hook := ⟨"h1", "m1", "x", "log", 100, true, "{}"⟩

/-- A manager with tracing disabled and one dispatchable hook on `x`. -/
def mmC1 : ModuleManager :=
  { modules := [], hooks := [("x", [logHookC1])], debugEnabled := false, debugLog := [] }

/-- Claim C1 (code bug): with tracing disabled, `Emit` on an event with one
resolvable hook does not return normally; building the success `DebugEvent`
reads `debugCtx.TraceID` through a nil pointer and panics. -/
theorem emit_panics_without_tracing :
    Emit builtinHandlers mmC1 "x" [] 0
      = EmitResult.panicked [] GoPanic.nilPointerDereference := by decide

/-! Claim C4: a failing handler with tracing disabled. -/

/-- The builtin table extended by one always-failing handler, standing for
any handler whose invocation returns an error. -/
def failingHandlers : String → Option HandlerFn := fun n =>
  if n == "boom" then some (fun ctx => (ctx, some "simulated failure"))
  else builtinHandlers n

def boomHookC4 : Hook := ⟨"hb", "m1", "x", "boom", 1, true, "{}"⟩

def laterHookC4 : Hook := ⟨"ha", "m1", "x", "log", 2, true, "{}"⟩

def mmC4 : ModuleManager :=
  { modules := [], hooks := [("x", [boomHookC4, laterHookC4])],
    debugEnabled := false, debugLog := [] }

/-- Claim C4 (code bug): with tracing disabled, a handler that returns an
error makes `Emit` panic while building the error `DebugEvent`, so the
later hook of the same list is never invoked and `Emit` does not return. -/
theorem emit_failing_handler_panics_without_tracing :
    Emit failingHandlers mmC4 "x" [] 0
      = EmitResult.panicked [] GoPanic.nilPointerDereference ∧
    laterHookC4 ∉ (Emit failingHandlers mmC4 "x" [] 0).invokedHooks := by decide

/-! Claims C3 and C7: the configuration store. -/

theorem setConfig_cons_of_ne (r : ConfigRow) (rs : List ConfigRow) (k v : String)
    (h : (r.key == k) = false) :
    SetConfig (r :: rs) k v = r :: SetConfig rs k v := by
  have h2 : ¬ r.key = k := by simpa using h
  by_cases ha : rs.any (fun x => x.key == k)
  · simp [SetConfig, setConfigUpsert, configVersionBump, h, h2, ha]
  · simp [SetConfig, setConfigUpsert, h, h2, ha]

theorem findConfig_setConfig (tbl : List ConfigRow) (k v : String) :
    findConfig (SetConfig tbl k v) k =
      match findConfig tbl k with
      | none => some { key := k, value := v, version := 1 }
      | some r => some { key := k, value := v, version := r.version + 2 } := by
  induction tbl with
  | nil =>
    simp [SetConfig, setConfigUpsert, findConfig]
  | cons r rs ih =>
    by_cases h : r.key = k
    · simp [SetConfig, setConfigUpsert, configVersionBump, findConfig, h]
    · have hb : (r.key == k) = false := by
        simp [h]
      rw [setConfig_cons_of_ne r rs k v hb]
      have hskip : findConfig (r :: SetConfig rs k v) k = findConfig (SetConfig rs k v) k := by
        simp [findConfig, hb]
      have hskip2 : findConfig (r :: rs) k = findConfig rs k := by
        simp [findConfig, hb]
      rw [hskip, hskip2]
      exact ih

/-- Claim C3 counterexample: after `Set("k","v1")` then `Set("k","v2")`,
`Get("k")` does return `"v2"`, but the row's version is 3, not 2: the
upsert's explicit `version = version + 1` and the `config_version_bump`
trigger each bump it, so the second `Set` adds two, not one. -/
theorem setConfig_version_counterexample :
    GetConfig (SetConfig (SetConfig [] "k" "v1") "k" "v2") "k" = Except.ok "v2" ∧
    (findConfig (SetConfig (SetConfig [] "k" "v1") "k" "v2") "k").map ConfigRow.version
      = some 3 ∧
    (findConfig (SetConfig [] "k" "v1") "k").map ConfigRow.version = some 1 ∧
    (3 : Nat) ≠ 1 + 1 :=
  ⟨rfl, rfl, rfl, by decide⟩

/-- Claim C3 amended: `Get` reflects the most recently committed value; a
first `Set` of a key leaves version 1 and every further `Set` of that key
adds exactly two to its version (upsert bump plus trigger bump), so the
version is strictly increasing. -/
theorem setConfig_get_and_version (tbl : List ConfigRow) (k v : String) :
    GetConfig (SetConfig tbl k v) k = Except.ok v ∧
    (findConfig tbl k = none →
      (findConfig (SetConfig tbl k v) k).map ConfigRow.version = some 1) ∧
    (∀ r, findConfig tbl k = some r →
      (findConfig (SetConfig tbl k v) k).map ConfigRow.version = some (r.version + 2)) ∧
    (∀ r r2, findConfig tbl k = some r → findConfig (SetConfig tbl k v) k = some r2 →
      r.version < r2.version) := by
  have hf := findConfig_setConfig tbl k v
  cases hfc : findConfig tbl k with
  | none =>
    rw [hfc] at hf
    refine ⟨?_, fun _ => ?_, fun r hr => ?_, fun r r2 hr _ => ?_⟩
    · simp [GetConfig, hf]
    · simp [hf]
    · simp at hr
    · simp at hr
  | some r0 =>
    rw [hfc] at hf
    refine ⟨?_, fun hn => ?_, fun r hr => ?_, fun r r2 hr hr2 => ?_⟩
    · simp [GetConfig, hf]
    · simp at hn
    · cases hr
      simp [hf]
    · cases hr
      rw [hf] at hr2
      cases hr2
      show r0.version < r0.version + 2
      omega

theorem setConfig_get_and_version_witness :
    GetConfig (SetConfig [{ key := "k", value := "v1", version := 1 }] "k" "v2") "k"
      = Except.ok "v2" ∧
    (findConfig (SetConfig [{ key := "k", value := "v1", version := 1 }] "k" "v2") "k").map
      ConfigRow.version = some (1 + 2) := by
  have h := setConfig_get_and_version [{ key := "k", value := "v1", version := 1 }] "k" "v2"
  exact ⟨h.1, h.2.2.1 { key := "k", value := "v1", version := 1 } (by decide)⟩

/-- Claim C7 counterexample: a missing key is not reported as not-found;
`GetConfig` swallows `sql.ErrNoRows` and returns a successful empty string,
indistinguishable from a stored empty value. -/
theorem getConfig_notFound_counterexample :
    GetConfig [] "k" = Except.ok "" ∧
    GetConfig [{ key := "k", value := "", version := 1 }] "k" = Except.ok "" ∧
    GetConfig [] "k" = GetConfig [{ key := "k", value := "", version := 1 }] "k" :=
  ⟨rfl, rfl, rfl⟩

/-- Claim C7 amended: `Get` returns the stored value when a row exists, and
the successful empty string (never an error) when no row exists; absence is
therefore only distinguishable from a stored value when that value is
non-empty. -/
theorem getConfig_value_or_empty (tbl : List ConfigRow) (k : String) :
    (∀ r, findConfig tbl k = some r → GetConfig tbl k = Except.ok r.value) ∧
    (findConfig tbl k = none → GetConfig tbl k = Except.ok "") := by
  constructor
  · intro r hr
    simp [GetConfig, hr]
  · intro hr
    simp [GetConfig, hr]

theorem getConfig_value_or_empty_witness :
    GetConfig [{ key := "k", value := "v", version := 1 }] "k" = Except.ok "v" ∧
    GetConfig [] "k" = Except.ok "" := by
  refine ⟨(getConfig_value_or_empty [{ key := "k", value := "v", version := 1 }] "k").1
      { key := "k", value := "v", version := 1 } (by decide),
    (getConfig_value_or_empty [] "k").2 (by decide)⟩

/-- Spot checks of the `%d` scan model against `fmt.Sscanf` behaviour:
vertical tab, carriage return and Unicode no-break space are skipped, an
input newline is a scan error, signs bind to the directly following
digits, trailing text is ignored, and the int64 bounds are exact. -/
theorem sscanfInt_checks :
    sscanfInt "\x0b5" = 5 ∧
    sscanfInt " 42" = 42 ∧
    sscanfInt "\x0d7" = 7 ∧
    sscanfInt "\n5" = 0 ∧
    sscanfInt " -42abc" = -42 ∧
    sscanfInt "+-5" = 0 ∧
    sscanfInt "9223372036854775807" = 9223372036854775807 ∧
    sscanfInt "9223372036854775808" = 0 ∧
    sscanfInt "-9223372036854775808" = -9223372036854775808 ∧
    sscanfInt "-9223372036854775809" = 0 := by decide

/-- Claim C8: the typed accessors are total and fall back to the type's
zero value: an absent key yields `false` and `0`, a stored text other than
`"true"`/`"1"` yields `false`, and a stored text whose `%d` scan fails (an
input newline, no digit after the optional sign, or int64 overflow) yields
`0`. -/
theorem typed_accessors_zero_value (tbl : List ConfigRow) (k : String) :
    (findConfig tbl k = none → GetConfigBool tbl k = false ∧ GetConfigInt tbl k = 0) ∧
    (∀ r, findConfig tbl k = some r →
      (((r.value == "true") || (r.value == "1")) = false → GetConfigBool tbl k = false) ∧
      (sscanfIntFails r.value = true → GetConfigInt tbl k = 0)) := by
  constructor
  · intro hn
    have hval : (GetConfig tbl k).toOption.getD "" = "" := by
      simp [GetConfig, hn, Except.toOption]
    constructor
    · simp only [GetConfigBool, hval]
      decide
    · simp only [GetConfigInt, hval]
      decide
  · intro r hr
    have hval : (GetConfig tbl k).toOption.getD "" = r.value := by
      simp [GetConfig, hr, Except.toOption]
    constructor
    · intro hb
      simp only [GetConfigBool, hval]
      exact hb
    · intro hd
      simp only [GetConfigInt, hval, sscanfInt]
      simp only [sscanfIntFails] at hd
      cases hsp : skipSpaceScanf r.value.data with
      | none =>
        simp [hsp]
      | some cs =>
        rw [hsp] at hd
        simp only [Option.isNone_iff_eq_none] at hd
        simp [hsp, hd]

theorem typed_accessors_zero_value_witness :
    GetConfigBool [{ key := "k", value := "abc", version := 1 }] "k" = false ∧
    GetConfigInt [{ key := "k", value := "abc", version := 1 }] "k" = 0 ∧
    GetConfigInt [{ key := "k", value := "\n5", version := 1 }] "k" = 0 ∧
    GetConfigInt [{ key := "k", value := "99999999999999999999", version := 1 }] "k" = 0 ∧
    GetConfigBool [] "missing" = false ∧
    GetConfigInt [] "missing" = 0 := by
  have h1 := (typed_accessors_zero_value [{ key := "k", value := "abc", version := 1 }] "k").2
    { key := "k", value := "abc", version := 1 } (by decide)
  have h2 := (typed_accessors_zero_value
    [{ key := "k", value := "\n5", version := 1 }] "k").2
    { key := "k", value := "\n5", version := 1 } (by decide)
  have h3 := (typed_accessors_zero_value
    [{ key := "k", value := "99999999999999999999", version := 1 }] "k").2
    { key := "k", value := "99999999999999999999", version := 1 } (by decide)
  have h4 := (typed_accessors_zero_value ([] : List ConfigRow) "missing").1 (by decide)
  exact ⟨h1.1 (by decide), h1.2 (by decide), h2.2 (by decide), h3.2 (by decide),
    h4.1, h4.2⟩

/-- Claim C9: per polling tick, a version increase produces one
`notifyWatchers` broadcast (at most one invocation per registered watcher)
and at most one non-blocking push on the single-slot reload signal, dropped
when one is already pending; a read failure changes nothing and the loop
keeps processing later ticks. -/
theorem notifier_coalesces (st : NotifierState) (v : Int) (watchers : List Nat) (w : Nat)
    (hreg : watchers.count w ≤ 1) :
    notifyCount watchers w (watchTick st (some v)) ≤ 1 ∧
    ((watchTick st (some v)).pushed = true → st.reloadPending = false) ∧
    ((watchTick st (some v)).state.reloadPending
      = (st.reloadPending || (watchTick st (some v)).notified)) ∧
    watchTick st none = { state := st, notified := false, pushed := false } ∧
    (∀ inputs : List (Option Int),
      watchRun st (none :: inputs)
        = ((watchRun st inputs).1,
            { state := st, notified := false, pushed := false } :: (watchRun st inputs).2)) := by
  by_cases hv : st.configVersion < v
  · refine ⟨?_, ?_, ?_, rfl, fun inputs => rfl⟩
    · simpa [notifyCount, watchTick, hv] using hreg
    · intro hp
      simpa [watchTick, hv] using hp
    · simp [watchTick, hv]
  · refine ⟨?_, ?_, ?_, rfl, fun inputs => rfl⟩
    · simp [notifyCount, watchTick, hv]
    · intro hp
      simp [watchTick, hv] at hp
    · simp [watchTick, hv]

theorem notifier_coalesces_witness :
    notifyCount [7] 7 (watchTick { configVersion := 0, reloadPending := false } (some 5)) ≤ 1 ∧
    watchTick { configVersion := 0, reloadPending := false } none
      = { state := { configVersion := 0, reloadPending := false },
          notified := false, pushed := false } := by
  have h := notifier_coalesces { configVersion := 0, reloadPending := false } 5 [7] 7
    (by decide)
  exact ⟨h.1, h.2.2.2.1⟩

/-- Claim C10: `reload` discards the previous module map and event index
before querying, so a failed modules query leaves both empty and a failed
hooks query leaves the fresh modules with no hooks; the previous snapshot
is never retained on error. -/
theorem reload_clears_before_querying (mm : ModuleManager) (e e2 : DBErr)
    (hookQ : Except DBErr (List Hook)) (mrows : List Module) :
    (reload mm (Except.error e) hookQ).1.modules = [] ∧
    (reload mm (Except.error e) hookQ).1.hooks = [] ∧
    (reload mm (Except.error e) hookQ).2 = some e ∧
    (reload mm (Except.ok mrows) (Except.error e2)).1.modules = loadModules mrows ∧
    (reload mm (Except.ok mrows) (Except.error e2)).1.hooks = [] ∧
    (reload mm (Except.ok mrows) (Except.error e2)).2 = some e2 :=
  ⟨rfl, rfl, rfl, rfl, rfl, rfl⟩

/-! Claim C2: the dispatch list consulted by `Emit`. -/

theorem lookupHooks_indexHook (idx : List (String × List Hook)) (h : Hook) (e : String) :
    lookupHooks (indexHook idx h) e =
      if h.event == e then lookupHooks idx e ++ [h] else lookupHooks idx e := by
  induction idx with
  | nil =>
    by_cases he : h.event = e
    · simp [indexHook, lookupHooks, he]
    · simp [indexHook, lookupHooks, he]
  | cons p rest ih =>
    by_cases hp : p.1 = h.event
    · by_cases hpe : p.1 = e
      · have he : h.event = e := hp.symm.trans hpe
        simp [indexHook, lookupHooks, hp, hpe, he]
      · have he : ¬ h.event = e := fun hh => hpe (hp.trans hh)
        simp [indexHook, lookupHooks, hp, hpe, he]
    · by_cases hpe : p.1 = e
      · have he : ¬ h.event = e := fun hh => hp (hpe.trans hh.symm)
        have hne : ¬ e = h.event := fun hh => hp (hpe.trans hh)
        simp [indexHook, lookupHooks, hp, hpe, he, hne]
      · simp [indexHook, lookupHooks, hp, hpe, ih]

theorem lookupHooks_foldl_indexHook (rows : List Hook) :
    ∀ idx : List (String × List Hook), ∀ e : String,
    lookupHooks (rows.foldl indexHook idx) e
      = lookupHooks idx e ++ rows.filter (fun h => h.event == e) := by
  induction rows with
  | nil =>
    intro idx e
    simp
  | cons h rest ih =>
    intro idx e
    rw [List.foldl_cons, ih (indexHook idx h) e, lookupHooks_indexHook]
    by_cases he : h.event = e
    · simp [he, List.filter_cons]
    · simp [he, List.filter_cons]

theorem lookupHooks_loadHooks (rows : List Hook) (e : String) :
    lookupHooks (loadHooks rows) e = rows.filter (fun h => h.event == e) := by
  have h := lookupHooks_foldl_indexHook rows [] e
  simpa [loadHooks, lookupHooks] using h

/-- The hook lists produced by the `ORDER BY priority` query are sorted. -/
theorem queryEnabledHooks_sorted (tbl : List Hook) :
    (queryEnabledHooks tbl).Pairwise Hook.le :=
  List.sorted_insertionSort Hook.le (tbl.filter (fun h => h.enabled))

/-- With tracing on, the loop runs exactly the hooks whose handler name
resolves, in list order, and never panics. -/
theorem emitLoop_invokedHooks (handlers : String → Option HandlerFn) (mm : ModuleManager)
    (tid : Nat) (event : String) (hooks : List Hook) :
    ∀ st : EmitState,
    (emitLoop handlers mm (some tid) event hooks st).invokedHooks
      = st.invoked.map Prod.fst ++ hooks.filter (fun h => (handlers h.handler).isSome) := by
  induction hooks with
  | nil =>
    intro st
    simp [emitLoop, EmitResult.invokedHooks]
  | cons h rest ih =>
    intro st
    cases hh : handlers h.handler with
    | none =>
      simp [emitLoop, hh, ih, List.filter_cons]
    | some f =>
      rcases hfc : f st.ctx with ⟨ctx2, errOpt⟩
      cases errOpt with
      | none =>
        simp [emitLoop, hh, hfc, ih, List.filter_cons]
      | some msg =>
        simp [emitLoop, hh, hfc, ih, List.filter_cons]

/-- The wildcard hook registered by the debug module and an exact hook on
event `x`, as enabled rows of `module_hooks`. -/
def wildHookC2 : Hook := ⟨"A", "debug", "*", "log", 1, true, "{}"⟩

def exactHookC2 : Hook := ⟨"B", "m1", "x", "log", 5, true, "{}"⟩

/-- The registry state built by `reload` from those two rows, tracing on. -/
def mmC2 : ModuleManager :=
  { modules := [], hooks := loadHooks (queryEnabledHooks [wildHookC2, exactHookC2]),
    debugEnabled := true, debugLog := [] }

/-- Claim C2 counterexample: `Emit("x", ...)` on a registry holding a
wildcard hook of priority 1 and an exact hook of priority 5 invokes only
the exact hook; the wildcard hook is never merged into the dispatch list,
let alone ahead of it. -/
theorem emit_ignores_wildcard_counterexample :
    (Emit builtinHandlers mmC2 "x" [] 0).invokedHooks = [exactHookC2] ∧
    wildHookC2 ∉ (Emit builtinHandlers mmC2 "x" [] 0).invokedHooks ∧
    ([exactHookC2] : List Hook) ≠ [wildHookC2, exactHookC2] := by decide

/-- Claim C2 amended: for a registry rebuilt by `reload`, `Emit(e, ...)`
consults exactly the hooks whose event name equals `e` literally, in
ascending priority order; hooks registered under any other name, the
wildcard name included, are not merged into the dispatch list.  Among the
consulted hooks, exactly those whose handler name resolves are invoked, in
that order. -/
theorem emit_dispatch_exact_event (tbl : List Hook) (e : String)
    (ms : List (String × Module)) (lg : List DebugEvent)
    (handlers : String → Option HandlerFn) (p : Payload) (t : Nat) :
    lookupHooks (loadHooks (queryEnabledHooks tbl)) e
      = (queryEnabledHooks tbl).filter (fun h => h.event == e) ∧
    (lookupHooks (loadHooks (queryEnabledHooks tbl)) e).Pairwise
      (fun a b => a.priority ≤ b.priority) ∧
    (∀ h ∈ lookupHooks (loadHooks (queryEnabledHooks tbl)) e, h.event = e) ∧
    (Emit handlers
        { modules := ms, hooks := loadHooks (queryEnabledHooks tbl),
          debugEnabled := true, debugLog := lg } e p t).invokedHooks
      = (lookupHooks (loadHooks (queryEnabledHooks tbl)) e).filter
          (fun h => (handlers h.handler).isSome) := by
  have hlk := lookupHooks_loadHooks (queryEnabledHooks tbl) e
  refine ⟨hlk, ?_, ?_, ?_⟩
  · rw [hlk]
    exact List.Pairwise.sublist (List.filter_sublist _) (queryEnabledHooks_sorted tbl)
  · intro h hm
    rw [hlk] at hm
    have := List.of_mem_filter hm
    simpa using this
  · by_cases hemp : lookupHooks (loadHooks (queryEnabledHooks tbl)) e = []
    · simp [Emit, hemp, EmitResult.invokedHooks]
    · have hne : (lookupHooks (loadHooks (queryEnabledHooks tbl)) e).isEmpty = false := by
        simpa [List.isEmpty_iff] using hemp
      simp only [Emit, hne, Bool.false_eq_true, if_false, if_true, Option.map_some']
      rw [emitLoop_invokedHooks]
      simp

theorem emit_dispatch_exact_event_witness :
    lookupHooks (loadHooks (queryEnabledHooks [wildHookC2, exactHookC2])) "x"
      = (queryEnabledHooks [wildHookC2, exactHookC2]).filter (fun h => h.event == "x") ∧
    exactHookC2.event = "x" := by
  have h := emit_dispatch_exact_event [wildHookC2, exactHookC2] "x" [] [] builtinHandlers [] 0
  exact ⟨h.1, h.2.2.1 exactHookC2 (by decide)⟩

/-! Claim C6: idempotence of module registration. -/

theorem upsertModuleRow_idem (tbl : List Module) (m : Module) :
    upsertModuleRow (upsertModuleRow tbl m) m = upsertModuleRow tbl m := by
  induction tbl with
  | nil =>
    simp [upsertModuleRow]
  | cons r rs ih =>
    by_cases h : r.moduleId = m.moduleId
    · simp [upsertModuleRow, h]
    · simp [upsertModuleRow, h, ih]

theorem filter_upsertModuleRow (tbl : List Module) (m : Module) :
    (tbl.map Module.moduleId).Nodup →
    (upsertModuleRow tbl m).filter (fun r => r.moduleId == m.moduleId) = [m] := by
  induction tbl with
  | nil =>
    intro _
    simp [upsertModuleRow]
  | cons r rs ih =>
    intro hnd
    rw [List.map_cons, List.nodup_cons] at hnd
    obtain ⟨hr, hrs⟩ := hnd
    by_cases h : r.moduleId = m.moduleId
    · have hrsnone : rs.filter (fun x => x.moduleId == m.moduleId) = [] := by
        rw [List.filter_eq_nil_iff]
        intro a ha
        simp only [beq_iff_eq]
        intro hax
        apply hr
        have hra : r.moduleId = a.moduleId := by rw [h, ← hax]
        rw [hra]
        exact List.mem_map_of_mem Module.moduleId ha
      simp [upsertModuleRow, h, List.filter_cons, hrsnone]
    · simp [upsertModuleRow, h, List.filter_cons, ih hrs]

theorem lookup_insertModuleEntry (acc : List (String × Module)) (m : Module) (k : String) :
    lookupModule (insertModuleEntry acc m) k
      = if m.moduleId == k then some m else lookupModule acc k := by
  induction acc with
  | nil =>
    by_cases h : m.moduleId = k <;> simp [insertModuleEntry, lookupModule, h]
  | cons p rest ih =>
    by_cases hp : p.1 = m.moduleId
    · by_cases hk : p.1 = k
      · have hmk : m.moduleId = k := hp.symm.trans hk
        simp [insertModuleEntry, lookupModule, hp, hk, hmk]
      · have hmk : ¬ m.moduleId = k := fun hh => hk (hp.trans hh)
        simp [insertModuleEntry, lookupModule, hp, hk, hmk]
    · by_cases hk : p.1 = k
      · have hmk : ¬ m.moduleId = k := fun hh => hp (hk.trans hh.symm)
        have hkm : ¬ k = m.moduleId := fun hh => hmk hh.symm
        simp [insertModuleEntry, lookupModule, hp, hk, hmk, hkm]
      · simp [insertModuleEntry, lookupModule, hp, hk, ih]

theorem lookup_foldl_insertModuleEntry (rows : List Module) :
    ∀ acc : List (String × Module), ∀ k : String,
    lookupModule (rows.foldl insertModuleEntry acc) k
      = match (rows.filter (fun r => r.moduleId == k)).getLast? with
        | some r => some r
        | none => lookupModule acc k := by
  induction rows with
  | nil =>
    intro acc k
    simp
  | cons r rest ih =>
    intro acc k
    rw [List.foldl_cons, ih (insertModuleEntry acc r) k, lookup_insertModuleEntry]
    by_cases h : r.moduleId = k
    · rw [List.filter_cons]
      simp only [h, beq_self_eq_true, if_true]
      rw [show (r :: rest.filter (fun x => x.moduleId == k))
            = [r] ++ rest.filter (fun x => x.moduleId == k) from rfl,
        List.getLast?_append]
      cases hl : (rest.filter (fun x => x.moduleId == k)).getLast? with
      | some x =>
        simp [Option.or]
      | none =>
        simp [Option.or, h]
    · have hb : (r.moduleId == k) = false := by simp [h]
      rw [List.filter_cons]
      simp only [hb, Bool.false_eq_true, if_false, h]

theorem mem_keys_insertModuleEntry (acc : List (String × Module)) (m : Module) (x : String) :
    x ∈ (insertModuleEntry acc m).map Prod.fst → x ∈ acc.map Prod.fst ∨ x = m.moduleId := by
  induction acc with
  | nil =>
    intro hx
    simp [insertModuleEntry] at hx
    exact Or.inr hx
  | cons p rest ih =>
    by_cases hp : p.1 = m.moduleId
    · intro hx
      simp only [insertModuleEntry, hp, beq_self_eq_true, if_true, List.map_cons,
        List.mem_cons] at hx
      rcases hx with h1 | h2
      · exact Or.inr h1
      · exact Or.inl (by rw [List.map_cons]; exact List.mem_cons_of_mem _ h2)
    · intro hx
      have hb : (p.1 == m.moduleId) = false := by simp [hp]
      simp only [insertModuleEntry, hb, Bool.false_eq_true, if_false, List.map_cons,
        List.mem_cons] at hx
      rcases hx with h1 | h2
      · exact Or.inl (by rw [List.map_cons, h1]; exact List.mem_cons_self _ _)
      · rcases ih h2 with h3 | h4
        · exact Or.inl (by rw [List.map_cons]; exact List.mem_cons_of_mem _ h3)
        · exact Or.inr h4

theorem keys_nodup_insertModuleEntry (acc : List (String × Module)) (m : Module)
    (h : (acc.map Prod.fst).Nodup) : ((insertModuleEntry acc m).map Prod.fst).Nodup := by
  induction acc with
  | nil =>
    simp [insertModuleEntry]
  | cons p rest ih =>
    rw [List.map_cons, List.nodup_cons] at h
    obtain ⟨hp1, hrest⟩ := h
    by_cases hp : p.1 = m.moduleId
    · simp only [insertModuleEntry, hp, beq_self_eq_true, if_true, List.map_cons,
        List.nodup_cons]
      rw [hp] at hp1
      exact ⟨hp1, hrest⟩
    · have hb : (p.1 == m.moduleId) = false := by simp [hp]
      simp only [insertModuleEntry, hb, Bool.false_eq_true, if_false, List.map_cons,
        List.nodup_cons]
      refine ⟨?_, ih hrest⟩
      intro hx
      rcases mem_keys_insertModuleEntry rest m p.1 hx with h1 | h2
      · exact hp1 h1
      · exact hp h2

theorem loadModules_keys_nodup (rows : List Module) :
    ((loadModules rows).map Prod.fst).Nodup := by
  have gen : ∀ acc : List (String × Module), (acc.map Prod.fst).Nodup →
      ((rows.foldl insertModuleEntry acc).map Prod.fst).Nodup := by
    induction rows with
    | nil =>
      intro acc h
      simpa using h
    | cons r rest ih =>
      intro acc h
      rw [List.foldl_cons]
      exact ih _ (keys_nodup_insertModuleEntry acc r h)
  exact gen [] (by simp)

/-- Claim C6: registering the same module twice leaves the table exactly as
one registration does, with exactly one row carrying its id; after a reload
of the table, the in-memory module map holds exactly one entry for that id,
equal to the registered module. -/
theorem registerModule_idempotent (tbl : List Module) (m : Module)
    (hkeys : (tbl.map Module.moduleId).Nodup) (hen : m.enabled = true) :
    RegisterModule (RegisterModule tbl m) m = RegisterModule tbl m ∧
    (RegisterModule tbl m).countP (fun r => r.moduleId == m.moduleId) = 1 ∧
    lookupModule (loadModules (queryEnabledModules (RegisterModule tbl m))) m.moduleId
      = some m ∧
    ((loadModules (queryEnabledModules (RegisterModule tbl m))).map Prod.fst).Nodup := by
  have hfilter := filter_upsertModuleRow tbl m hkeys
  refine ⟨upsertModuleRow_idem tbl m, ?_, ?_, loadModules_keys_nodup _⟩
  · rw [RegisterModule, List.countP_eq_length_filter, hfilter]
    rfl
  · have hcomm : ((RegisterModule tbl m).filter (fun r => r.enabled)).filter
        (fun r => r.moduleId == m.moduleId) = [m] := by
      rw [List.filter_filter]
      have hother : ((RegisterModule tbl m).filter (fun r => r.moduleId == m.moduleId)).filter
          (fun r => r.enabled) = [m] := by
        rw [RegisterModule, hfilter, List.filter_cons]
        simp [hen]
      rw [List.filter_filter] at hother
      rw [show (fun (r : Module) => r.enabled && (r.moduleId == m.moduleId))
            = (fun (r : Module) => (r.moduleId == m.moduleId) && r.enabled) from
          funext fun r => Bool.and_comm _ _] at hother
      exact hother
    have hq : (queryEnabledModules (RegisterModule tbl m)).filter
        (fun r => r.moduleId == m.moduleId) = [m] := by
      have hperm := (List.perm_insertionSort Module.le
        ((RegisterModule tbl m).filter (fun r => r.enabled))).filter
          (fun r => r.moduleId == m.moduleId)
      rw [hcomm] at hperm
      exact List.perm_singleton.mp hperm
    have hlk := lookup_foldl_insertModuleEntry (queryEnabledModules (RegisterModule tbl m))
      [] m.moduleId
    rw [hq] at hlk
    simpa [loadModules] using hlk

/-- One concrete module row, as the learning module registers it. -/
def mC6 : Module := ⟨"m1", "Learning Engine", "1.0.0", true, 50, "{}", none⟩

theorem registerModule_idempotent_witness :
    RegisterModule (RegisterModule [] mC6) mC6 = RegisterModule [] mC6 ∧
    lookupModule (loadModules (queryEnabledModules (RegisterModule [] mC6))) "m1"
      = some mC6 := by
  have h := registerModule_idempotent [] mC6 (by simp) rfl
  exact ⟨h.1, h.2.2.1⟩

end GoClode
